import Mathlib

/-!
Verification of the semantic-memory subsystem of Open-LLM-VTuber:
the RAG memory store (`rag_memory.py`) and the LLM importance-extraction
pipeline (`memory_extractor.py`), shallowly embedded in Lean.

Python floats are modelled by `ℚ` (the arithmetic appearing in the claims
is exact in IEEE as well); Python `str` by Lean `String` (both count code
points); character classes of the `re` module are modelled over ASCII, as
noted on each definition.
-/

/- Batteries marks the `Rat` field operations `@[irreducible]`, which blocks
kernel evaluation of concrete rational arithmetic in `decide`/`rfl` proofs;
restore the default reducibility (the definitions are unchanged). -/
set_option allowUnsafeReducibility true
attribute [semireducible] Rat.add Rat.sub Rat.mul Rat.inv Rat.ofScientific

namespace OLV

/-- ASCII model of the whitespace stripped by Python `str.strip()`
(space, tab, newline, carriage return, vertical tab, form feed).
Python additionally strips some Unicode spaces, which are not modelled. -/
def isPyStrSpace (c : Char) : Bool :=
  c = ' ' || c = '\t' || c = '\n' || c = '\r' || c = Char.ofNat 11 || c = Char.ofNat 12

/-- `str.strip()` on a list of characters: drop leading and trailing whitespace. -/
def pyStripList (l : List Char) : List Char :=
  ((l.dropWhile isPyStrSpace).reverse.dropWhile isPyStrSpace).reverse

/-- Model of Python `str.strip()` (ASCII whitespace). -/
def pyStrip (s : String) : String :=
  ⟨pyStripList s.data⟩

/-- Model of `posixpath.basename`: the suffix after the last `/`
(`p[p.rfind('/') + 1 :]`).  The repository also runs on Windows, where
`ntpath.basename` additionally splits on `\`; the claims only use `/`. -/
def posixBasename (s : String) : String :=
  ⟨s.data.foldl (fun acc c => if c = '/' then [] else acc ++ [c]) []⟩

/-- ASCII model of the character class `[\w\-_]` of the pattern
`^[\w\-_]+$` in `_sanitize_path_component` (rag_memory.py line 49):
alphanumeric, underscore or hyphen.  Python's `\w` additionally matches
non-ASCII word characters, which are not modelled. -/
def isWordHyphenChar (c : Char) : Bool :=
  c.isAlphanum || c = '_' || c = '-'

/-- Model of `_sanitize_path_component` (rag_memory.py lines 45-51):
strip the component, take its basename, and require the pattern
`^[\w\-_]+$` to match; raise `ValueError` (modelled as `Except.error`)
otherwise.  `re.match` with `^...$` would also accept a single trailing
newline, but the strip/basename pipeline can never produce one, so the
model requires the match on the whole string. -/
def sanitizePathComponent (component : String) : Except String String :=
  let sanitized := posixBasename (pyStrip component)
  if sanitized ≠ "" ∧ sanitized.data.all isWordHyphenChar then
    Except.ok sanitized
  else
    Except.error ("Invalid characters in path component: " ++ component)

/-- `RAGMemoryManager.__init__` (rag_memory.py line 126) assigns
`self.conf_uid = _sanitize_path_component(conf_uid)` with no handler, so a
`ValueError` from sanitization makes construction fail. -/
def ragInitConfUid (confUid : String) : Except String String :=
  sanitizePathComponent confUid

/-- C1 counterexample: the scope id `"../../etc"` is NOT rejected.
`os.path.basename` runs before validation, so the component is reduced to
`"etc"`, which matches the pattern and is accepted (and the accepted value
differs from the input, so it is not "used unchanged" either). -/
theorem c1_basename_not_rejected :
    ragInitConfUid "../../etc" = Except.ok "etc" := by
  rfl

lemma dropWhile_eq_self_of_all_false {p : Char → Bool} :
    ∀ l : List Char, (∀ c ∈ l, p c = false) → l.dropWhile p = l
  | [], _ => rfl
  | c :: cs, h => by
    rw [List.dropWhile_cons, h c (List.mem_cons_self _ _)]
    simp

/-- `str.strip()` is the identity on strings with no whitespace characters. -/
lemma pyStripList_eq_self {l : List Char} (h : ∀ c ∈ l, isPyStrSpace c = false) :
    pyStripList l = l := by
  unfold pyStripList
  rw [dropWhile_eq_self_of_all_false l h,
    dropWhile_eq_self_of_all_false l.reverse (fun c hc => h c (List.mem_reverse.mp hc)),
    List.reverse_reverse]

lemma foldl_basename_eq_append :
    ∀ (l acc : List Char), (∀ c ∈ l, c ≠ '/') →
      l.foldl (fun acc c => if c = '/' then [] else acc ++ [c]) acc = acc ++ l
  | [], acc, _ => by simp
  | c :: cs, acc, h => by
    rw [List.foldl_cons, if_neg (h c (List.mem_cons_self _ _)),
      foldl_basename_eq_append cs (acc ++ [c])
        (fun d hd => h d (List.mem_cons_of_mem _ hd))]
    simp

/-- `posixpath.basename` is the identity on strings containing no `/`. -/
lemma posixBasename_eq_self {s : String} (h : ∀ c ∈ s.data, c ≠ '/') :
    posixBasename s = s := by
  unfold posixBasename
  rw [foldl_basename_eq_append s.data [] h]
  rfl

/-- A character of the class `[A-Za-z0-9_-]` is not stripped whitespace. -/
lemma isWordHyphenChar_not_space {c : Char} (h : isWordHyphenChar c = true) :
    isPyStrSpace c = false := by
  by_contra hs
  rw [Bool.not_eq_false] at hs
  simp only [isPyStrSpace, Bool.or_eq_true, decide_eq_true_eq] at hs
  rcases hs with ((((hc | hc) | hc) | hc) | hc) | hc <;>
    (subst hc; exact absurd h (by decide))

/-- A character of the class `[A-Za-z0-9_-]` is not a path separator. -/
lemma isWordHyphenChar_ne_slash {c : Char} (h : isWordHyphenChar c = true) :
    c ≠ '/' := by
  intro he
  subst he
  exact absurd h (by decide)

/-- C1 (amended): scope ids are first stripped and reduced to their final
path component; construction fails (`ValueError`) exactly when that
component is empty or contains a character outside `[A-Za-z0-9_-]` (the
failure direction stated for ASCII inputs, since Python's `\w` also admits
non-ASCII word characters), and otherwise succeeds and returns that
component; a scope id made only of characters in `[A-Za-z0-9_-]` is
accepted and used unchanged.  In particular `"../../etc"` is accepted as
`"etc"` rather than rejected, and `"char_01"` is accepted unchanged. -/
theorem c1_sanitize_amended :
    (∀ s : String, (∀ c ∈ s.data, c.toNat < 128) →
      (posixBasename (pyStrip s) = "" ∨
        (posixBasename (pyStrip s)).data.all isWordHyphenChar = false) →
      (ragInitConfUid s).toOption = none)
    ∧ ragInitConfUid "../../etc" = Except.ok "etc"
    ∧ ragInitConfUid "char_01" = Except.ok "char_01"
    ∧ (∀ s : String, posixBasename (pyStrip s) ≠ "" →
        (posixBasename (pyStrip s)).data.all isWordHyphenChar = true →
        ragInitConfUid s = Except.ok (posixBasename (pyStrip s)))
    ∧ (∀ s : String, s ≠ "" → s.data.all isWordHyphenChar = true →
        ragInitConfUid s = Except.ok s) := by
  have haccept : ∀ s : String, posixBasename (pyStrip s) ≠ "" →
      (posixBasename (pyStrip s)).data.all isWordHyphenChar = true →
      ragInitConfUid s = Except.ok (posixBasename (pyStrip s)) := by
    intro s hne hall
    unfold ragInitConfUid sanitizePathComponent
    rw [if_pos ⟨hne, hall⟩]
  refine ⟨?_, by rfl, by rfl, haccept, ?_⟩
  · intro s _ h
    unfold ragInitConfUid sanitizePathComponent
    have hcond : ¬ (posixBasename (pyStrip s) ≠ "" ∧
        (posixBasename (pyStrip s)).data.all isWordHyphenChar) := by
      rcases h with h | h
      · simp [h]
      · simp [h]
    rw [if_neg hcond]
    rfl
  · intro s hne hall
    have hall' : ∀ c ∈ s.data, isWordHyphenChar c = true :=
      fun c hc => List.all_eq_true.mp hall c hc
    have hstrip : pyStrip s = s := by
      show (⟨pyStripList s.data⟩ : String) = s
      rw [pyStripList_eq_self fun c hc => isWordHyphenChar_not_space (hall' c hc)]
    have hbase : posixBasename s = s :=
      posixBasename_eq_self fun c hc => isWordHyphenChar_ne_slash (hall' c hc)
    have := haccept s (by rw [hstrip, hbase]; exact hne) (by rw [hstrip, hbase]; exact hall)
    rw [hstrip, hbase] at this
    exact this

/-- Witness for C1: the failure direction at the concrete scope id `"a b"`
(which contains a space), and the acceptance directions at `"x/y_1"`
(basename `"y_1"` accepted) and at `"char-01"` (accepted unchanged). -/
theorem c1_sanitize_amended_witness :
    (ragInitConfUid "a b").toOption = none
    ∧ ragInitConfUid "x/y_1" = Except.ok "y_1"
    ∧ ragInitConfUid "char-01" = Except.ok "char-01" :=
  ⟨c1_sanitize_amended.1 "a b" (by decide) (Or.inr (by decide)),
   c1_sanitize_amended.2.2.2.1 "x/y_1" (by decide) (by decide),
   c1_sanitize_amended.2.2.2.2 "char-01" (by decide) (by decide)⟩

/-! ## RAG memory store (`RAGMemoryManager`, rag_memory.py)

The embedding model and the FAISS index search are external collaborators
(sentence-transformers / faiss libraries); they enter the model as function
parameters `embed` and `searchFn`.  The in-memory state is the pair of the
FAISS index (a list of vectors, in insertion order) and the parallel
`self.metadata` list. -/

/-- One element of `self.metadata`: `{"role": .., "content": .., "timestamp": ..}`
(rag_memory.py lines 299-305). -/
structure MemoryRecord where
  role : String
  content : String
  timestamp : String
deriving DecidableEq

/-- The in-memory state of a `RAGMemoryManager`: the FAISS index (vectors in
insertion order; after `__init__` the index is never `None`, so the `None`
case is not modelled) and the parallel metadata list. -/
structure RAGState where
  index : List (List ℚ)
  metadata : List MemoryRecord
deriving DecidableEq

/-- The comparison of `_memory_exists` (rag_memory.py lines 260-266),
shared with the dedup counting used in the theorems. -/
def tripleMatches (content role timestamp : String) (meta : MemoryRecord) : Bool :=
  meta.content == content && meta.role == role && meta.timestamp == timestamp

/-- Model of `RAGMemoryManager._memory_exists` (rag_memory.py lines 258-267):
linear scan for an exact (content, role, timestamp) match. -/
def memoryExists (metadata : List MemoryRecord) (content role timestamp : String) : Bool :=
  metadata.any (tripleMatches content role timestamp)

/-- Number of stored records matching a dedup triple. -/
def countTriple (metadata : List MemoryRecord) (content role timestamp : String) : ℕ :=
  (metadata.filter (tripleMatches content role timestamp)).length

/-- Model of `RAGMemoryManager.add_memory` (rag_memory.py lines 269-312):
no-op on empty or whitespace-only content, no-op if the dedup triple
already exists, otherwise append the embedding to the index and the record
to the metadata.  The periodic `_save_index()` every 10 records does not
change the in-memory state; the `embedder.encode` call is modelled by the
total parameter `embed`. -/
def addMemory (embed : String → List ℚ) (st : RAGState)
    (role content timestamp : String) : RAGState :=
  if pyStrip content = "" then st
  else if memoryExists st.metadata content role timestamp then st
  else { index := st.index ++ [embed content],
         metadata := st.metadata ++ [⟨role, content, timestamp⟩] }

/-- The similarity transform of `search_relevant_context`
(rag_memory.py line 359): `similarity = 1.0 - (distance * distance / 2.0)`
applied to each value returned by the index search. -/
def simOfDistance (d : ℚ) : ℚ := 1 - d * d / 2

/-- The rendering `memory_text = f"{role_label}: {content}"` of
`search_relevant_context` (rag_memory.py lines 368-369), with
`role_label = "User" if role == "human" else "Assistant"`. -/
def renderMemory (meta : MemoryRecord) : String :=
  (if meta.role = "human" then "User" else "Assistant") ++ ": " ++ meta.content

/-- The result-collection loop of `search_relevant_context`
(rag_memory.py lines 350-376): iterate over the `(distance, idx)` pairs
returned by the index search; skip pairs with `idx >= len(self.metadata)`;
convert distance to similarity; keep entries with `similarity >= threshold`,
rendered by `renderMemory`; break (discarding the entry and the rest) once
`total_length + len(memory_text) + 2 > max_length`. -/
def collectRelevant (metadata : List MemoryRecord) (threshold : ℚ) (maxLength : ℤ) :
    List (ℚ × ℕ) → ℕ → List String
  | [], _ => []
  | (distance, idx) :: rest, totalLength =>
    if h : idx < metadata.length then
      if threshold ≤ simOfDistance distance then
        if maxLength < (totalLength : ℤ) + (renderMemory (metadata.get ⟨idx, h⟩)).length + 2
        then []
        else renderMemory (metadata.get ⟨idx, h⟩) ::
          collectRelevant metadata threshold maxLength rest
            (totalLength + (renderMemory (metadata.get ⟨idx, h⟩)).length + 2)
      else collectRelevant metadata threshold maxLength rest totalLength
    else collectRelevant metadata threshold maxLength rest totalLength

/-- Model of Python `"\n".join(...)`. -/
def joinLines : List String → String
  | [] => ""
  | [s] => s
  | s :: t :: rest => s ++ "\n" ++ joinLines (t :: rest)

/-- The fixed header prepended by `search_relevant_context`
(rag_memory.py line 382); 36 characters. -/
def ragHeader : String := "Relevant past conversation context:\n"

/-- Model of `RAGMemoryManager.search_relevant_context`
(rag_memory.py lines 314-395).  `contextThreshold` and `maxContextLength`
are the instance attributes set at construction (defaults 0.3 and 800);
`threshold` and `maxLength` are the per-call overrides.  The query
embedding and the FAISS `index.search` call are the external parameters
`embed` and `searchFn`; `searchFn` receives the stored vectors, the query
embedding and `k = min(10, len(self.metadata))`. -/
def searchRelevantContext (embed : String → List ℚ)
    (searchFn : List (List ℚ) → List ℚ → ℕ → List (ℚ × ℕ))
    (st : RAGState) (contextThreshold : ℚ) (maxContextLength : ℤ)
    (query : String) (threshold : Option ℚ) (maxLength : Option ℤ) : String :=
  if pyStrip query = "" then ""
  else if st.metadata.length = 0 then ""
  else if min 10 st.metadata.length = 0 then ""
  else if collectRelevant st.metadata (threshold.getD contextThreshold)
      (maxLength.getD maxContextLength)
      (searchFn st.index (embed query) (min 10 st.metadata.length)) 0 = [] then ""
  else ragHeader ++ joinLines (collectRelevant st.metadata (threshold.getD contextThreshold)
      (maxLength.getD maxContextLength)
      (searchFn st.index (embed query) (min 10 st.metadata.length)) 0)

/-- The collection loop only ever accumulates entries while the running
total (entry lengths plus the fixed 2-character separator each) fits in
`maxLength`: whenever the output is non-empty, the final running total is
at most the budget. -/
lemma collectRelevant_budget (metadata : List MemoryRecord) (thr : ℚ) (maxLen : ℤ) :
    ∀ (results : List (ℚ × ℕ)) (tot : ℕ),
      collectRelevant metadata thr maxLen results tot ≠ [] →
      (tot : ℤ) + ((collectRelevant metadata thr maxLen results tot).map
        (fun s => (s.length : ℤ) + 2)).sum ≤ maxLen := by
  intro results
  induction results with
  | nil => intro tot h; simp [collectRelevant] at h
  | cons p rest ih =>
    obtain ⟨d, idx⟩ := p
    intro tot h
    by_cases hidx : idx < metadata.length
    · by_cases hsim : thr ≤ simOfDistance d
      · by_cases hbreak : maxLen <
            (tot : ℤ) + (renderMemory (metadata.get ⟨idx, hidx⟩)).length + 2
        · rw [collectRelevant, dif_pos hidx, if_pos hsim, if_pos hbreak] at h
          exact absurd rfl h
        · rw [collectRelevant] at h ⊢
          rw [dif_pos hidx, if_pos hsim, if_neg hbreak] at h ⊢
          rcases eq_or_ne (collectRelevant metadata thr maxLen rest
              (tot + (renderMemory (metadata.get ⟨idx, hidx⟩)).length + 2)) [] with hrec | hrec
          · rw [hrec]
            simp only [List.map_cons, List.map_nil, List.sum_cons, List.sum_nil]
            omega
          · have := ih (tot + (renderMemory (metadata.get ⟨idx, hidx⟩)).length + 2) hrec
            simp only [List.map_cons, List.sum_cons]
            push_cast at this ⊢
            omega
      · rw [collectRelevant] at h ⊢
        rw [dif_pos hidx, if_neg hsim] at h ⊢
        exact ih tot h
    · rw [collectRelevant] at h ⊢
      rw [dif_neg hidx] at h ⊢
      exact ih tot h

/-- Length of `"\n".join(l)` for non-empty `l`: the entry lengths plus one
separator character between consecutive entries. -/
lemma joinLines_length : ∀ l : List String, l ≠ [] →
    (joinLines l).length + 1 = (l.map String.length).sum + l.length
  | [], h => absurd rfl h
  | [s], _ => by simp [joinLines]
  | s :: t :: rest, _ => by
    have ih := joinLines_length (t :: rest) (by simp)
    have h1 : joinLines (s :: t :: rest) = s ++ "\n" ++ joinLines (t :: rest) := rfl
    have h2 : ("\n" : String).length = 1 := rfl
    rw [h1, String.length_append, String.length_append, h2]
    simp only [List.map_cons, List.sum_cons, List.length_cons] at ih ⊢
    omega

lemma sum_length_plus_two (L : List String) :
    ((L.map fun s => (s.length : ℤ) + 2).sum) =
      ((L.map String.length).sum : ℤ) + 2 * L.length := by
  induction L with
  | nil => simp
  | cons s rest ih =>
    simp only [List.map_cons, List.sum_cons, List.length_cons, ih]
    push_cast
    ring

/-- C2 counterexample: with an effective budget of `max_chars = 50`, a
single stored memory rendered as 36 characters passes the accumulation
check (`0 + 36 + 2 ≤ 50`), yet the returned string is 72 characters long —
the fixed 36-character header is not counted against the budget, so the
result exceeds `max_chars`. -/
theorem c2_header_overflow_counterexample :
    50 < (searchRelevantContext (fun _ => [1]) (fun _ _ _ => [((0 : ℚ), 0)])
      ⟨[[1]], [⟨"human", "aaaaaaaaaaaaaaaaaaaaaaaaaaaaaa", ""⟩]⟩
      0 50 "q" none none).length := by
  decide

/-- C2 (amended): the budget `max_chars` bounds only the accumulated
entries (each counted with a 2-character separator); accumulation stops
before the first entry that would overflow that budget, but the fixed
header is excluded from it, so the full returned string is only bounded by
`max_chars + 34` (the 36-character header minus the two-character slack
the final separator accounting always leaves), not by `max_chars`. -/
theorem c2_budget_amended :
    ∀ (embed : String → List ℚ)
      (searchFn : List (List ℚ) → List ℚ → ℕ → List (ℚ × ℕ))
      (st : RAGState) (ctxThr : ℚ) (maxCtx : ℤ) (query : String)
      (thrO : Option ℚ) (maxO : Option ℤ),
      searchRelevantContext embed searchFn st ctxThr maxCtx query thrO maxO ≠ "" →
      ((searchRelevantContext embed searchFn st ctxThr maxCtx query thrO maxO).length : ℤ)
        ≤ maxO.getD maxCtx + 34 := by
  intro embed searchFn st ctxThr maxCtx query thrO maxO hne
  unfold searchRelevantContext at hne ⊢
  split_ifs at hne ⊢ with h1 h2 h3 h4
  · exact absurd rfl hne
  · exact absurd rfl hne
  · exact absurd rfl hne
  · exact absurd rfl hne
  · have hbudget := collectRelevant_budget st.metadata (thrO.getD ctxThr)
      (maxO.getD maxCtx) (searchFn st.index (embed query) (min 10 st.metadata.length)) 0 h4
    have hjoin := joinLines_length _ h4
    have hpos : 1 ≤ (collectRelevant st.metadata (thrO.getD ctxThr) (maxO.getD maxCtx)
        (searchFn st.index (embed query) (min 10 st.metadata.length)) 0).length :=
      List.length_pos.mpr h4
    rw [sum_length_plus_two] at hbudget
    rw [String.length_append]
    have hheader : ragHeader.length = 36 := by decide
    rw [hheader]
    push_cast
    omega

/-- Witness for C2 (amended): a concrete search that returns a non-empty
context; its length is bounded by the effective budget plus 34. -/
theorem c2_budget_amended_witness :
    ((searchRelevantContext (fun _ => [1]) (fun _ _ _ => [((0 : ℚ), 0)])
      ⟨[[1]], [⟨"human", "hi", ""⟩]⟩ 0 50 "q" none none).length : ℤ) ≤ 50 + 34 :=
  c2_budget_amended (fun _ => [1]) (fun _ _ _ => [((0 : ℚ), 0)])
    ⟨[[1]], [⟨"human", "hi", ""⟩]⟩ 0 50 "q" none none (by decide)

/-- C4: the similarity used for filtering is exactly `1 - d²/2` of the
value `d` returned by the index search; a returned distance of `0` yields
similarity exactly `1`, a returned distance with squared value `4` yields
similarity exactly `-1`; and an in-range entry whose similarity is below
the threshold is skipped by the collection loop. -/
theorem c4_similarity_conversion :
    (∀ d : ℚ, simOfDistance d = 1 - d * d / 2)
    ∧ simOfDistance 0 = 1
    ∧ (∀ d : ℚ, d * d = 4 → simOfDistance d = -1)
    ∧ (∀ (metadata : List MemoryRecord) (thr : ℚ) (maxLen : ℤ) (d : ℚ)
        (idx : ℕ) (rest : List (ℚ × ℕ)) (tot : ℕ),
        idx < metadata.length → simOfDistance d < thr →
        collectRelevant metadata thr maxLen ((d, idx) :: rest) tot
          = collectRelevant metadata thr maxLen rest tot) := by
  refine ⟨fun d => rfl, by decide, ?_, ?_⟩
  · intro d h
    unfold simOfDistance
    rw [h]
    norm_num
  · intro metadata thr maxLen d idx rest tot hidx hlt
    rw [collectRelevant, dif_pos hidx, if_neg (not_le.mpr hlt)]

/-- Witness for C4: the distance `2` (squared value `4`) maps to similarity
`-1`, and a concrete in-range entry with similarity below the threshold is
skipped. -/
theorem c4_similarity_conversion_witness :
    simOfDistance 2 = -1
    ∧ collectRelevant [⟨"human", "abc", "t"⟩] 1 50 [((3 : ℚ), 0)] 0
        = collectRelevant [⟨"human", "abc", "t"⟩] 1 50 [] 0 :=
  ⟨c4_similarity_conversion.2.2.1 2 (by norm_num),
   c4_similarity_conversion.2.2.2 [⟨"human", "abc", "t"⟩] 1 50 3 0 [] 0
     (by decide) (by decide)⟩

/-- C9: a blank query or an empty store makes `search_relevant_context`
return the empty string (no error is raised), and when the function does
search, it calls the index search with `k = min(10, record count)` — the
result depends on the search collaborator only through its value at that
`k`. -/
theorem c9_guards_and_k :
    (∀ embed searchFn (st : RAGState) ctxThr maxCtx query thrO maxO,
      pyStrip query = "" →
      searchRelevantContext embed searchFn st ctxThr maxCtx query thrO maxO = "")
    ∧ (∀ embed searchFn (st : RAGState) ctxThr maxCtx query thrO maxO,
      st.metadata = [] →
      searchRelevantContext embed searchFn st ctxThr maxCtx query thrO maxO = "")
    ∧ (∀ embed searchFn1 searchFn2 (st : RAGState) ctxThr maxCtx query thrO maxO,
      searchFn1 st.index (embed query) (min 10 st.metadata.length)
        = searchFn2 st.index (embed query) (min 10 st.metadata.length) →
      searchRelevantContext embed searchFn1 st ctxThr maxCtx query thrO maxO
        = searchRelevantContext embed searchFn2 st ctxThr maxCtx query thrO maxO) := by
  refine ⟨?_, ?_, ?_⟩
  · intro embed searchFn st ctxThr maxCtx query thrO maxO h
    simp [searchRelevantContext, h]
  · intro embed searchFn st ctxThr maxCtx query thrO maxO h
    simp [searchRelevantContext, h]
  · intro embed searchFn1 searchFn2 st ctxThr maxCtx query thrO maxO h
    unfold searchRelevantContext
    rw [h]

/-- Witness for C9: the three parts applied at concrete inputs — a
whitespace-only query, an empty store, and two search collaborators that
agree at `k = min(10, 1) = 1`. -/
theorem c9_guards_and_k_witness :
    searchRelevantContext (fun _ => [1]) (fun _ _ _ => [((0 : ℚ), 0)])
      ⟨[[1]], [⟨"human", "hi", ""⟩]⟩ 0 50 " " none none = ""
    ∧ searchRelevantContext (fun _ => [1]) (fun _ _ _ => [((0 : ℚ), 0)])
      ⟨[], []⟩ 0 50 "q" none none = ""
    ∧ searchRelevantContext (fun _ => [1]) (fun _ _ _ => []) ⟨[[1]], [⟨"human", "hi", ""⟩]⟩
        0 50 "q" none none
      = searchRelevantContext (fun _ => [1]) (fun _ _ k => if k = 1 then [] else [(0, 0)])
        ⟨[[1]], [⟨"human", "hi", ""⟩]⟩ 0 50 "q" none none :=
  ⟨c9_guards_and_k.1 _ _ _ _ _ _ _ _ (by decide),
   c9_guards_and_k.2.1 _ _ _ _ _ _ _ _ rfl,
   c9_guards_and_k.2.2 (fun _ => [1]) (fun _ _ _ => [])
     (fun _ _ k => if k = 1 then [] else [(0, 0)])
     ⟨[[1]], [⟨"human", "hi", ""⟩]⟩ 0 50 "q" none none (by decide)⟩

/-- C10: out-of-range ordinals are skipped before any record access — the
collection loop computes the same output on the raw search results as on
the results with every pair whose ordinal is `≥` the record count removed,
and the record lookup in the model carries an in-bounds proof. -/
theorem c10_out_of_range_skipped (metadata : List MemoryRecord) (thr : ℚ) (maxLen : ℤ) :
    ∀ (results : List (ℚ × ℕ)) (tot : ℕ),
      collectRelevant metadata thr maxLen results tot
        = collectRelevant metadata thr maxLen
            (results.filter fun p => decide (p.2 < metadata.length)) tot := by
  intro results
  induction results with
  | nil => intro tot; rfl
  | cons p rest ih =>
    obtain ⟨d, idx⟩ := p
    intro tot
    by_cases hidx : idx < metadata.length
    · rw [List.filter_cons_of_pos (by simpa using hidx)]
      by_cases hsim : thr ≤ simOfDistance d
      · by_cases hbreak : maxLen <
            (tot : ℤ) + (renderMemory (metadata.get ⟨idx, hidx⟩)).length + 2
        · rw [collectRelevant, collectRelevant, dif_pos hidx, dif_pos hidx,
            if_pos hsim, if_pos hsim, if_pos hbreak, if_pos hbreak]
        · rw [collectRelevant, collectRelevant, dif_pos hidx, dif_pos hidx,
            if_pos hsim, if_pos hsim, if_neg hbreak, if_neg hbreak, ih]
      · rw [collectRelevant, collectRelevant, dif_pos hidx, dif_pos hidx,
          if_neg hsim, if_neg hsim, ih]
    · rw [List.filter_cons_of_neg (by simpa using hidx)]
      rw [collectRelevant, dif_neg hidx, ih]

/-! ## Store lifecycle: load/create, bulk import, save (C3, C7) -/

/-- Model of `_load_or_create_index` (rag_memory.py lines 169-200):
`loaded` is the deserialized pair of persisted files when both exist and
deserialize cleanly, `none` otherwise; on `none` a fresh empty index and
metadata list are created. -/
def loadOrCreateIndex (loaded : Option (List (List ℚ) × List MemoryRecord)) : RAGState :=
  match loaded with
  | some (idx, meta) => ⟨idx, meta⟩
  | none => ⟨[], []⟩

/-- Model of `_save_index` (rag_memory.py lines 202-221): the pair of files
written to disk — written only when the metadata list is non-empty
(`len(self.metadata) > 0`), `none` otherwise.  Saving never changes the
in-memory state. -/
def saveIndex (st : RAGState) : Option (List (List ℚ) × List MemoryRecord) :=
  if 0 < st.metadata.length then some (st.index, st.metadata) else none

/-- Model of `_load_existing_memories` (rag_memory.py lines 223-256): the
bulk import over the flattened history messages, in order; a message is
indexed when its role is `"human"` or `"ai"` and its content is non-empty
(truthy) and the dedup triple is not already present; the final
`_save_index()` does not change the in-memory state. -/
def loadExistingMemories (embed : String → List ℚ) (st : RAGState)
    (msgs : List MemoryRecord) : RAGState :=
  msgs.foldl (fun s m =>
    if ((m.role == "human" || m.role == "ai") && m.content != "") = true then
      if memoryExists s.metadata m.content m.role m.timestamp then s
      else addMemory embed s m.role m.content m.timestamp
    else s) st

/-- The parallel-array invariant of the store: the indexed vectors are, in
order, exactly the embeddings of the stored records' contents (hence equal
counts, and the vector at ordinal `i` was produced from the `i`-th record). -/
def ragInvariant (embed : String → List ℚ) (st : RAGState) : Prop :=
  st.index = st.metadata.map fun r => embed r.content

lemma addMemory_invariant (embed : String → List ℚ) (st : RAGState)
    (role content timestamp : String) (h : ragInvariant embed st) :
    ragInvariant embed (addMemory embed st role content timestamp) := by
  unfold addMemory
  split
  · exact h
  · split
    · exact h
    · unfold ragInvariant at h ⊢
      simp [h]

lemma addMemory_metadata_extend (embed : String → List ℚ) (st : RAGState)
    (role content timestamp : String) :
    ∃ tail, (addMemory embed st role content timestamp).metadata = st.metadata ++ tail := by
  unfold addMemory
  split
  · exact ⟨[], by simp⟩
  · split
    · exact ⟨[], by simp⟩
    · exact ⟨[⟨role, content, timestamp⟩], rfl⟩

lemma loadExistingMemories_invariant (embed : String → List ℚ) :
    ∀ (msgs : List MemoryRecord) (st : RAGState), ragInvariant embed st →
      ragInvariant embed (loadExistingMemories embed st msgs) := by
  intro msgs
  induction msgs with
  | nil => intro st h; exact h
  | cons m rest ih =>
    intro st h
    rw [loadExistingMemories, List.foldl_cons]
    apply ih
    split
    · split
      · exact h
      · exact addMemory_invariant embed st m.role m.content m.timestamp h
    · exact h

lemma loadExistingMemories_metadata_extend (embed : String → List ℚ) :
    ∀ (msgs : List MemoryRecord) (st : RAGState), ∃ tail,
      (loadExistingMemories embed st msgs).metadata = st.metadata ++ tail := by
  intro msgs
  induction msgs with
  | nil => intro st; exact ⟨[], by simp [loadExistingMemories]⟩
  | cons m rest ih =>
    intro st
    rw [loadExistingMemories, List.foldl_cons]
    have hstep : ∃ tail1,
        (if ((m.role == "human" || m.role == "ai") && m.content != "") = true then
          if memoryExists st.metadata m.content m.role m.timestamp then st
          else addMemory embed st m.role m.content m.timestamp
        else st).metadata = st.metadata ++ tail1 := by
      split
      · split
        · exact ⟨[], by simp⟩
        · exact addMemory_metadata_extend embed st m.role m.content m.timestamp
      · exact ⟨[], by simp⟩
    obtain ⟨tail1, htail1⟩ := hstep
    obtain ⟨tail2, htail2⟩ := ih _
    refine ⟨tail1 ++ tail2, ?_⟩
    rw [loadExistingMemories] at htail2
    rw [htail2, htail1, List.append_assoc]

/-- C7: every modelled store operation preserves the parallel-array
invariant: fresh creation establishes it; `add` preserves it (appending
the embedding of the new record's content); bulk import preserves it;
loading back what `save` wrote preserves it; and `add` and bulk import only
ever append to the record list, never reorder or remove. -/
theorem c7_parallel_invariant :
    (∀ embed : String → List ℚ, ragInvariant embed (loadOrCreateIndex none))
    ∧ (∀ (embed : String → List ℚ) (st : RAGState) (role content timestamp : String),
        ragInvariant embed st →
        ragInvariant embed (addMemory embed st role content timestamp))
    ∧ (∀ (embed : String → List ℚ) (st : RAGState) (msgs : List MemoryRecord),
        ragInvariant embed st →
        ragInvariant embed (loadExistingMemories embed st msgs))
    ∧ (∀ (embed : String → List ℚ) (st : RAGState),
        ragInvariant embed st → ragInvariant embed (loadOrCreateIndex (saveIndex st)))
    ∧ (∀ (embed : String → List ℚ) (st : RAGState) (role content timestamp : String),
        ∃ tail, (addMemory embed st role content timestamp).metadata
          = st.metadata ++ tail)
    ∧ (∀ (embed : String → List ℚ) (st : RAGState) (msgs : List MemoryRecord),
        ∃ tail, (loadExistingMemories embed st msgs).metadata = st.metadata ++ tail) := by
  refine ⟨?_, ?_, ?_, ?_, ?_, ?_⟩
  · intro embed
    rfl
  · exact fun embed st r c t h => addMemory_invariant embed st r c t h
  · exact fun embed st msgs h => loadExistingMemories_invariant embed msgs st h
  · intro embed st h
    by_cases hlen : 0 < st.metadata.length
    · rw [saveIndex, if_pos hlen]
      exact h
    · rw [saveIndex, if_neg hlen]
      rfl
  · exact fun embed st r c t => addMemory_metadata_extend embed st r c t
  · exact fun embed st msgs => loadExistingMemories_metadata_extend embed msgs st

/-- Witness for C7: concrete instantiations of the hypothesis-bearing
parts at an embedding `fun _ => [1]` and a one-record invariant store. -/
theorem c7_parallel_invariant_witness :
    ragInvariant (fun _ => [(1 : ℚ)])
      (addMemory (fun _ => [(1 : ℚ)]) ⟨[[1]], [⟨"human", "a", "t"⟩]⟩ "human" "b" "t")
    ∧ ragInvariant (fun _ => [(1 : ℚ)])
      (loadExistingMemories (fun _ => [(1 : ℚ)]) ⟨[[1]], [⟨"human", "a", "t"⟩]⟩
        [⟨"ai", "c", "t"⟩])
    ∧ ragInvariant (fun _ => [(1 : ℚ)])
      (loadOrCreateIndex (saveIndex ⟨[[1]], [⟨"human", "a", "t"⟩]⟩)) :=
  ⟨c7_parallel_invariant.2.1 (fun _ => [(1 : ℚ)]) ⟨[[1]], [⟨"human", "a", "t"⟩]⟩
     "human" "b" "t" (by rfl),
   c7_parallel_invariant.2.2.1 (fun _ => [(1 : ℚ)]) ⟨[[1]], [⟨"human", "a", "t"⟩]⟩
     [⟨"ai", "c", "t"⟩] (by rfl),
   c7_parallel_invariant.2.2.2.1 (fun _ => [(1 : ℚ)]) ⟨[[1]], [⟨"human", "a", "t"⟩]⟩
     (by rfl)⟩

/-! ## Dedup idempotence (C3) -/

lemma memoryExists_false_iff (metadata : List MemoryRecord)
    (content role timestamp : String) :
    memoryExists metadata content role timestamp = false ↔
      countTriple metadata content role timestamp = 0 := by
  unfold memoryExists countTriple
  rw [List.length_eq_zero, List.filter_eq_nil_iff, List.any_eq_false]

/-- C3 counterexample: with empty content, both calls to `add` are no-ops,
so two identical `add` calls leave zero stored records and zero indexed
vectors for the triple, not exactly one. -/
theorem c3_empty_content_counterexample :
    addMemory (fun _ => [(1 : ℚ)])
      (addMemory (fun _ => [(1 : ℚ)]) ⟨[], []⟩ "human" "" "t") "human" "" "t"
      = ⟨[], []⟩ := by
  decide

/-- C3 (amended): the second of two identical `add` calls is always a
no-op (for any arguments and any starting state); and when the content is
not whitespace-only and the dedup triple is not yet present, two identical
calls leave exactly one matching record, with the index and the record
list each grown by exactly one; an `add` of an already-present triple
changes nothing. -/
theorem c3_dedup_amended :
    (∀ (embed : String → List ℚ) (st : RAGState) (role content timestamp : String),
      addMemory embed (addMemory embed st role content timestamp) role content timestamp
        = addMemory embed st role content timestamp)
    ∧ (∀ (embed : String → List ℚ) (st : RAGState) (role content timestamp : String),
        pyStrip content ≠ "" →
        countTriple st.metadata content role timestamp = 0 →
        countTriple (addMemory embed (addMemory embed st role content timestamp)
            role content timestamp).metadata content role timestamp = 1
        ∧ (addMemory embed st role content timestamp).index.length
            = st.index.length + 1
        ∧ (addMemory embed st role content timestamp).metadata.length
            = st.metadata.length + 1)
    ∧ (∀ (embed : String → List ℚ) (st : RAGState) (role content timestamp : String),
        memoryExists st.metadata content role timestamp = true →
        addMemory embed st role content timestamp = st) := by
  have hnoop : ∀ (embed : String → List ℚ) (st : RAGState)
      (role content timestamp : String),
      memoryExists st.metadata content role timestamp = true →
      addMemory embed st role content timestamp = st := by
    intro embed st role content timestamp hex
    unfold addMemory
    by_cases hb : pyStrip content = ""
    · rw [if_pos hb]
    · rw [if_neg hb, if_pos hex]
  refine ⟨?_, ?_, hnoop⟩
  · intro embed st role content timestamp
    by_cases hb : pyStrip content = ""
    · simp [addMemory, hb]
    · by_cases hex : memoryExists st.metadata content role timestamp
      · have h1 := hnoop embed st role content timestamp hex
        rw [h1, h1]
      · have hfirst : addMemory embed st role content timestamp =
            ⟨st.index ++ [embed content],
             st.metadata ++ [⟨role, content, timestamp⟩]⟩ := by
          unfold addMemory
          rw [if_neg hb, if_neg (by simp [hex])]
        rw [hfirst]
        apply hnoop
        simp [memoryExists, List.any_append, tripleMatches]
  · intro embed st role content timestamp hb hcount
    have hex : memoryExists st.metadata content role timestamp = false := by
      rw [memoryExists_false_iff]
      exact hcount
    have hfirst : addMemory embed st role content timestamp =
        ⟨st.index ++ [embed content],
         st.metadata ++ [⟨role, content, timestamp⟩]⟩ := by
      unfold addMemory
      rw [if_neg hb, if_neg (by simp [hex])]
    have hsecond : addMemory embed (addMemory embed st role content timestamp)
        role content timestamp = addMemory embed st role content timestamp := by
      apply hnoop
      rw [hfirst]
      simp [memoryExists, List.any_append, tripleMatches]
    refine ⟨?_, by rw [hfirst]; simp, by rw [hfirst]; simp⟩
    rw [hsecond, hfirst]
    unfold countTriple at hcount ⊢
    rw [List.filter_append]
    simp [tripleMatches, hcount]

/-- Witness for C3 (amended): from the empty store, two `add` calls with
the non-blank content `"hello"` leave exactly one matching record and a
one-longer index and record list. -/
theorem c3_dedup_amended_witness :
    countTriple (addMemory (fun _ => [(1 : ℚ)])
        (addMemory (fun _ => [(1 : ℚ)]) ⟨[], []⟩ "human" "hello" "t")
        "human" "hello" "t").metadata "hello" "human" "t" = 1
    ∧ (addMemory (fun _ => [(1 : ℚ)]) ⟨[], []⟩ "human" "hello" "t").index.length
        = ([] : List (List ℚ)).length + 1
    ∧ (addMemory (fun _ => [(1 : ℚ)]) ⟨[], []⟩ "human" "hello" "t").metadata.length
        = ([] : List MemoryRecord).length + 1 :=
  c3_dedup_amended.2.1 (fun _ => [(1 : ℚ)]) ⟨[], []⟩ "human" "hello" "t"
    (by decide) (by decide)

/-! ## Memory extractor (`MemoryExtractor`, memory_extractor.py)

The LLM call is an external collaborator; `extract_memories` is modelled as
a function of the message content and the assembled response text (the
concatenation of the streamed string chunks; non-string chunks are skipped
by the code and so never reach the parser). -/

/-- The opening and closing brace characters (written via code points). -/
def braceL : Char := Char.ofNat 123

def braceR : Char := Char.ofNat 125

/-- ASCII model of the regex class `\s` (space, tab, newline, carriage
return, vertical tab, form feed). -/
def isPyRegexSpace (c : Char) : Bool :=
  c = ' ' || c = '\t' || c = '\n' || c = '\r' || c = Char.ofNat 11 || c = Char.ofNat 12

/-- One left-to-right pass of `re.sub(pat + r"\s*", "", text)` for a
literal pattern `pat`: at each position, if the pattern matches, drop it
together with the greedy whitespace run after it and continue after the
match; otherwise keep the character.  `fuel` is a totality device; every
step consumes at least one character, so `length + 1` fuel always
suffices. -/
def reSubDropPat (pat : List Char) : ℕ → List Char → List Char
  | 0, l => l
  | _ + 1, [] => []
  | fuel + 1, c :: cs =>
    if (c :: cs).take pat.length = pat then
      reSubDropPat pat fuel (((c :: cs).drop pat.length).dropWhile isPyRegexSpace)
    else c :: reSubDropPat pat fuel cs

/-- Model of the fence stripping of `_parse_json_response`
(memory_extractor.py lines 134-135): `re.sub(r"```json\s*", "", text)`
followed by `re.sub(r"```\s*", "", text)`. -/
def stripCodeFences (s : String) : String :=
  ⟨reSubDropPat "```".data (s.data.length + 1)
    (reSubDropPat "```json".data (s.data.length + 1) s.data)⟩

/-- Model of `re.sub(r",\s*" + close, close, text)` for `close` being `}`
or `]` (memory_extractor.py lines 156-157): each match of a comma,
optional whitespace and the closing bracket is replaced by the closing
bracket alone, scanning left to right and continuing after each match. -/
def fixTrailingComma (close : Char) : ℕ → List Char → List Char
  | 0, l => l
  | _ + 1, [] => []
  | fuel + 1, c :: cs =>
    if c = ',' then
      match cs.dropWhile isPyRegexSpace with
      | d :: ds =>
        if d = close then close :: fixTrailingComma close fuel ds
        else c :: fixTrailingComma close fuel cs
      | [] => c :: fixTrailingComma close fuel cs
    else c :: fixTrailingComma close fuel cs

/-- The substring between the first `{` and the last `}` (inclusive), or
`none` when either bracket is absent or the last `}` precedes the first `{`
(memory_extractor.py lines 140-147). -/
def extractBraced (l : List Char) : Option (List Char) :=
  let t := l.dropWhile (fun c => c != braceL)
  if t = [] then none
  else
    let u := (t.reverse.dropWhile (fun c => c != braceR)).reverse
    if u = [] then none else some u

/-- Parsed JSON values as produced by Python `json.loads`: objects keep
their key order (duplicate keys resolve to the last occurrence on
lookup). -/
inductive PyJson where
  | null : PyJson
  | bool : Bool → PyJson
  | num : ℚ → PyJson
  | str : String → PyJson
  | arr : List PyJson → PyJson
  | obj : List (String × PyJson) → PyJson

/-- JSON interelement whitespace accepted by Python `json.loads`
(space, tab, newline, carriage return only). -/
def isJsonWs (c : Char) : Bool :=
  c = ' ' || c = '\t' || c = '\n' || c = '\r'

def hexVal (c : Char) : Option ℕ :=
  if c.isDigit then some (c.toNat - 48)
  else if 'a' ≤ c ∧ c ≤ 'f' then some (c.toNat - 87)
  else if 'A' ≤ c ∧ c ≤ 'F' then some (c.toNat - 70)
  else none

/-- Strict JSON string body (after the opening quote): literal characters
up to the closing quote, with the escapes `\" \\ \/ \b \f \n \r \t \uXXXX`;
raw control characters are rejected (`json.loads` default `strict=True`);
surrogate-pair recombination is not modelled (unused by the claims). -/
def parseJsonStringAux (acc : List Char) : List Char → Option (String × List Char)
  | [] => none
  | c :: cs =>
    if c = '"' then some (⟨acc.reverse⟩, cs)
    else if c = '\\' then
      match cs with
      | [] => none
      | e :: es =>
        if e = '"' then parseJsonStringAux ('"' :: acc) es
        else if e = '\\' then parseJsonStringAux ('\\' :: acc) es
        else if e = '/' then parseJsonStringAux ('/' :: acc) es
        else if e = 'b' then parseJsonStringAux (Char.ofNat 8 :: acc) es
        else if e = 'f' then parseJsonStringAux (Char.ofNat 12 :: acc) es
        else if e = 'n' then parseJsonStringAux ('\n' :: acc) es
        else if e = 'r' then parseJsonStringAux ('\r' :: acc) es
        else if e = 't' then parseJsonStringAux ('\t' :: acc) es
        else if e = 'u' then
          match es with
          | h1 :: h2 :: h3 :: h4 :: es2 =>
            match hexVal h1, hexVal h2, hexVal h3, hexVal h4 with
            | some a, some b, some c2, some d =>
              parseJsonStringAux (Char.ofNat (((a * 16 + b) * 16 + c2) * 16 + d) :: acc) es2
            | _, _, _, _ => none
          | _ => none
        else none
    else if c.toNat < 32 then none
    else parseJsonStringAux (c :: acc) cs

def digitsToNat (l : List Char) : ℕ :=
  l.foldl (fun a c => a * 10 + (c.toNat - 48)) 0

/-- The rational value of a decimal literal
`[-] intD [. fracD] [e expVal]`. -/
def buildDecimal (neg : Bool) (intD fracD : List Char) (expVal : ℤ) : ℚ :=
  let mantNat : ℕ := digitsToNat intD * 10 ^ fracD.length + digitsToNat fracD
  let num : ℤ := if neg then -(mantNat : ℤ) else (mantNat : ℤ)
  if 0 ≤ expVal then
    mkRat (num * ((10 ^ expVal.toNat : ℕ) : ℤ)) (10 ^ fracD.length)
  else
    mkRat num (10 ^ fracD.length * 10 ^ (-expVal).toNat)

/-- The optional exponent group `[eE][-+]?\d+` of the JSON number grammar:
if the digits are missing the group simply does not match and nothing is
consumed (`orig` is returned). -/
def jsonExpTail (r orig : List Char) : ℤ × List Char :=
  match r with
  | '+' :: rr =>
    if rr.takeWhile Char.isDigit = [] then (0, orig)
    else ((digitsToNat (rr.takeWhile Char.isDigit) : ℤ), rr.dropWhile Char.isDigit)
  | '-' :: rr =>
    if rr.takeWhile Char.isDigit = [] then (0, orig)
    else (-(digitsToNat (rr.takeWhile Char.isDigit) : ℤ), rr.dropWhile Char.isDigit)
  | _ =>
    if r.takeWhile Char.isDigit = [] then (0, orig)
    else ((digitsToNat (r.takeWhile Char.isDigit) : ℤ), r.dropWhile Char.isDigit)

/-- Strict JSON number per Python's scanner regex
`(-?(?:0|[1-9]\d*))(\.\d+)?([eE][-+]?\d+)?`: optional minus, an integer
part with no leading zeros, then optional fraction and exponent groups
that are only consumed when they fully match.  `NaN`/`Infinity` constants
are not modelled (unused by the claims). -/
def parseJsonNumber (l : List Char) : Option (ℚ × List Char) :=
  let (neg, l1) : Bool × List Char :=
    match l with
    | '-' :: rest => (true, rest)
    | _ => (false, l)
  match l1 with
  | [] => none
  | c :: cs =>
    if ¬ c.isDigit then none
    else
      let (intD, rest1) : List Char × List Char :=
        if c = '0' then ([c], cs)
        else ((c :: cs).takeWhile Char.isDigit, (c :: cs).dropWhile Char.isDigit)
      let (fracD, rest2) : List Char × List Char :=
        match rest1 with
        | '.' :: r =>
          if r.takeWhile Char.isDigit = [] then ([], rest1)
          else (r.takeWhile Char.isDigit, r.dropWhile Char.isDigit)
        | _ => ([], rest1)
      let (expVal, rest3) : ℤ × List Char :=
        match rest2 with
        | 'e' :: r => jsonExpTail r rest2
        | 'E' :: r => jsonExpTail r rest2
        | _ => (0, rest2)
      some (buildDecimal neg intD fracD expVal, rest3)

/-- Parsing tasks of the recursive-descent JSON reader: a value, the
members of an object (positioned at a key), or the elements of an array
(positioned at a value). -/
inductive PTask where
  | value (l : List Char)
  | objMembers (acc : List (String × PyJson)) (l : List Char)
  | arrElements (acc : List PyJson) (l : List Char)

/-- Strict JSON parser modelling Python `json.loads`' scanner: whitespace
is skipped between tokens; objects require string keys and reject trailing
commas (after a comma a new key, respectively a new value, is required).
`fuel` is a totality device: the parser answers `none` when it runs out,
and callers always pass more fuel than the parse can consume. -/
def parseJson : ℕ → PTask → Option (PyJson × List Char)
  | 0, _ => none
  | fuel + 1, PTask.value l =>
    match l.dropWhile isJsonWs with
    | [] => none
    | c :: cs =>
      if c = braceL then
        match cs.dropWhile isJsonWs with
        | [] => none
        | d :: ds =>
          if d = braceR then some (PyJson.obj [], ds)
          else parseJson fuel (PTask.objMembers [] (d :: ds))
      else if c = '[' then
        match cs.dropWhile isJsonWs with
        | [] => none
        | d :: ds =>
          if d = ']' then some (PyJson.arr [], ds)
          else parseJson fuel (PTask.arrElements [] (d :: ds))
      else if c = '"' then
        match parseJsonStringAux [] cs with
        | some (s, rest) => some (PyJson.str s, rest)
        | none => none
      else if c = 'n' then
        if cs.take 3 = ['u', 'l', 'l'] then some (PyJson.null, cs.drop 3) else none
      else if c = 't' then
        if cs.take 3 = ['r', 'u', 'e'] then some (PyJson.bool true, cs.drop 3) else none
      else if c = 'f' then
        if cs.take 4 = ['a', 'l', 's', 'e'] then some (PyJson.bool false, cs.drop 4)
        else none
      else
        match parseJsonNumber (c :: cs) with
        | some (q, rest) => some (PyJson.num q, rest)
        | none => none
  | fuel + 1, PTask.objMembers acc l =>
    match l with
    | '"' :: cs =>
      match parseJsonStringAux [] cs with
      | some (key, rest) =>
        match rest.dropWhile isJsonWs with
        | ':' :: rest2 =>
          match parseJson fuel (PTask.value rest2) with
          | some (v, rest3) =>
            match rest3.dropWhile isJsonWs with
            | [] => none
            | d :: ds =>
              if d = braceR then some (PyJson.obj (acc ++ [(key, v)]), ds)
              else if d = ',' then
                parseJson fuel (PTask.objMembers (acc ++ [(key, v)]) (ds.dropWhile isJsonWs))
              else none
          | none => none
        | _ => none
      | none => none
    | _ => none
  | fuel + 1, PTask.arrElements acc l =>
    match parseJson fuel (PTask.value l) with
    | some (v, rest) =>
      match rest.dropWhile isJsonWs with
      | [] => none
      | d :: ds =>
        if d = ']' then some (PyJson.arr (acc ++ [v]), ds)
        else if d = ',' then parseJson fuel (PTask.arrElements (acc ++ [v]) ds)
        else none
    | none => none

/-- Model of `json.loads`: parse one value and require only whitespace to
remain (`"Extra data"` otherwise). -/
def jsonLoads (l : List Char) : Option PyJson :=
  match parseJson (2 * l.length + 8) (PTask.value l) with
  | some (v, rest) => if rest.dropWhile isJsonWs = [] then some v else none
  | none => none

/-- Model of `_parse_json_response` (memory_extractor.py lines 124-163):
strip markdown fences, strip whitespace, cut out the substring between the
first `{` and the last `}`, try a strict decode, and on failure retry once
after removing trailing commas before `}` and before `]`. -/
def parseJsonResponse (s : String) : Option PyJson :=
  let text := pyStripList (stripCodeFences s).data
  match extractBraced text with
  | none => none
  | some jsonStr =>
    match jsonLoads jsonStr with
    | some v => some v
    | none =>
      jsonLoads (fixTrailingComma ']' (jsonStr.length + 1)
        (fixTrailingComma '}' (jsonStr.length + 1) jsonStr))

/-- Python truthiness of a parsed JSON value, for the
`if not extracted_data:` check (memory_extractor.py line 89). -/
def pyFalsy : PyJson → Bool
  | PyJson.null => true
  | PyJson.bool b => !b
  | PyJson.num q => q == 0
  | PyJson.str s => s == ""
  | PyJson.arr xs => xs.isEmpty
  | PyJson.obj kvs => kvs.isEmpty

/-- Python `dict.get`: later duplicate keys overwrite earlier ones, so the
lookup returns the last binding. -/
def pyDictGet (kvs : List (String × PyJson)) (key : String) : Option PyJson :=
  (kvs.reverse.find? fun p => p.1 == key).map (fun p => p.2)

/-- Model of Python `float(<str>)` for plain decimal literals: strip,
optional sign, digits with optional fraction and exponent, full
consumption required.  `inf`/`nan`/underscore separators are not modelled
(unused by the claims). -/
def pyFloatString (s : String) : Option ℚ :=
  let l := pyStripList s.data
  let (neg, l1) : Bool × List Char :=
    match l with
    | '+' :: rest => (false, rest)
    | '-' :: rest => (true, rest)
    | _ => (false, l)
  let intD := l1.takeWhile Char.isDigit
  let r1 := l1.dropWhile Char.isDigit
  let (fracD, r2) : List Char × List Char :=
    match r1 with
    | '.' :: r => (r.takeWhile Char.isDigit, r.dropWhile Char.isDigit)
    | _ => ([], r1)
  if intD = [] ∧ fracD = [] then none
  else
    match r2 with
    | [] => some (buildDecimal neg intD fracD 0)
    | e :: r =>
      if e = 'e' ∨ e = 'E' then
        match jsonExpTail r (e :: r) with
        | (expVal, []) => some (buildDecimal neg intD fracD expVal)
        | (_, _ :: _) => none
      else none

/-- Model of Python `float(x)` on a parsed JSON value (the
`float(importance)` coercion at memory_extractor.py line 118): numbers are
returned as-is, booleans coerce to 0/1, numeric strings are parsed;
`None`, lists and dicts raise `TypeError` (modelled as `none`, which the
caller turns into the zero default via its exception handler). -/
def pyFloatOfJson : PyJson → Option ℚ
  | PyJson.num q => some q
  | PyJson.bool b => some (if b then 1 else 0)
  | PyJson.str s => pyFloatString s
  | _ => none

/-- The result dictionary of `extract_memories`:
`{"importance": float, "memories": list}` (each kept memory entry is a
parsed JSON object containing a `"summary"` key). -/
structure ExtractionResult where
  importance : ℚ
  memories : List PyJson

/-- The per-entry filter of `extract_memories` (memory_extractor.py lines
110-112): keep entries that are dicts containing a `"summary"` key. -/
def isSummaryObj : PyJson → Bool
  | PyJson.obj mkvs => (pyDictGet mkvs "summary").isSome
  | _ => false

/-- The field validation of `extract_memories` after a successful,
non-falsy parse (memory_extractor.py lines 96-118): a non-dict result
defaults; `importance` and `memories` default to `0.0` and `[]` when
absent; a non-list `memories` defaults; entries are filtered by
`isSummaryObj`; and a failing `float(importance)` coercion raises into the
surrounding handler, which returns the zero default. -/
def extractFromData : PyJson → ExtractionResult
  | PyJson.obj kvs =>
    match (pyDictGet kvs "memories").getD (PyJson.arr []) with
    | PyJson.arr ms =>
      match pyFloatOfJson ((pyDictGet kvs "importance").getD (PyJson.num 0)) with
      | some f => ⟨f, ms.filter isSummaryObj⟩
      | none => ⟨0, []⟩
    | _ => ⟨0, []⟩
  | _ => ⟨0, []⟩

/-- The steps of `extract_memories` after the response text is assembled:
parse failure or a falsy parse result default, anything else goes through
the field validation. -/
def extractFromResponse : Option PyJson → ExtractionResult
  | none => ⟨0, []⟩
  | some extractedData =>
    if pyFalsy extractedData then ⟨0, []⟩ else extractFromData extractedData

/-- Model of `MemoryExtractor.extract_memories` (memory_extractor.py lines
30-122) as a function of the message content and the assembled response
text: blank content or a blank response short-circuit to the zero default;
otherwise the parsed response is validated by `extractFromResponse`.  The
function is total: every failure path yields
`{importance: 0.0, memories: []}`. -/
def extractMemories (content responseText : String) : ExtractionResult :=
  if pyStrip content = "" then ⟨0, []⟩
  else if pyStrip responseText = "" then ⟨0, []⟩
  else extractFromResponse (parseJsonResponse responseText)

/-- The fence-removal pass only ever drops characters, so it cannot
introduce a character that was not in the input. -/
lemma mem_of_reSubDropPat (pat : List Char) :
    ∀ (fuel : ℕ) (l : List Char) (c : Char), c ∈ reSubDropPat pat fuel l → c ∈ l := by
  intro fuel
  induction fuel with
  | zero =>
    intro l c h
    rw [reSubDropPat] at h
    exact h
  | succ fuel ih =>
    intro l c h
    cases l with
    | nil =>
      rw [reSubDropPat] at h
      exact h
    | cons x xs =>
      rw [reSubDropPat] at h
      split at h
      · exact ((List.dropWhile_sublist _).trans (List.drop_sublist _ _)).mem (ih _ _ h)
      · rcases List.mem_cons.mp h with h | h
        · exact h ▸ List.mem_cons_self _ _
        · exact List.mem_cons_of_mem _ (ih _ _ h)

lemma mem_of_pyStripList {l : List Char} {c : Char} (h : c ∈ pyStripList l) : c ∈ l := by
  unfold pyStripList at h
  have h1 := (List.dropWhile_sublist _).mem (List.mem_reverse.mp h)
  exact (List.dropWhile_sublist _).mem (List.mem_reverse.mp h1)

lemma extractBraced_none_of_no_braceL {l : List Char} (h : braceL ∉ l) :
    extractBraced l = none := by
  have ht : l.dropWhile (fun c => c != braceL) = [] :=
    List.dropWhile_eq_nil_iff.mpr fun x hx =>
      bne_iff_ne.mpr fun he => h (he ▸ hx)
  simp [extractBraced, ht]

lemma extractBraced_none_of_no_braceR {l : List Char} (h : braceR ∉ l) :
    extractBraced l = none := by
  by_cases ht : l.dropWhile (fun c => c != braceL) = []
  · simp [extractBraced, ht]
  · have hu : (l.dropWhile fun c => c != braceL).reverse.dropWhile
        (fun c => c != braceR) = [] := by
      apply List.dropWhile_eq_nil_iff.mpr
      intro x hx
      apply bne_iff_ne.mpr
      intro he
      exact h (he ▸ (List.dropWhile_sublist _).mem (List.mem_reverse.mp hx))
    simp [extractBraced, ht, hu]

/-- A response without a `{` or without a `}` fails the parse: the fence
removal and the strip only delete characters, and then the brace extraction
finds no bracket. -/
lemma parseJsonResponse_none_of_no_brace {s : String}
    (h : braceL ∉ s.data ∨ braceR ∉ s.data) : parseJsonResponse s = none := by
  have hsub : ∀ c : Char, c ∈ pyStripList (stripCodeFences s).data → c ∈ s.data := by
    intro c hc
    have h1 := mem_of_pyStripList hc
    exact mem_of_reSubDropPat _ _ _ _ (mem_of_reSubDropPat _ _ _ _ h1)
  have hb : extractBraced (pyStripList (stripCodeFences s).data) = none := by
    rcases h with h | h
    · exact extractBraced_none_of_no_braceL fun hc => h (hsub _ hc)
    · exact extractBraced_none_of_no_braceR fun hc => h (hsub _ hc)
  unfold parseJsonResponse
  simp only [hb]

/-- The C5 response text: markdown-fenced JSON with a trailing comma
inside the array. -/
def c5Response : String :=
  "```json\n\x7b\"importance\": 0.8, \"memories\": [\x7b\"summary\": \"x\"\x7d,]\x7d\n```"

/-- The substring of `c5Response` between the first `{` and the last `}`
after fence removal and stripping. -/
def c5Inner : String :=
  "\x7b\"importance\": 0.8, \"memories\": [\x7b\"summary\": \"x\"\x7d,]\x7d"

/-- C5: on the fenced trailing-comma response, the pipeline strips the
fences and whitespace, extracts the substring between the first `{` and
the last `}`, fails the strict decode, succeeds after the trailing-comma
repair, and returns importance `0.8` with the single memory
`{"summary": "x"}`. -/
theorem c5_extraction_pipeline :
    pyStrip (stripCodeFences c5Response) = c5Inner
    ∧ extractBraced (pyStripList (stripCodeFences c5Response).data) = some c5Inner.data
    ∧ jsonLoads c5Inner.data = none
    ∧ parseJsonResponse c5Response
        = some (PyJson.obj [("importance", PyJson.num (4 / 5)),
            ("memories", PyJson.arr [PyJson.obj [("summary", PyJson.str "x")]])])
    ∧ extractMemories "hi" c5Response
        = ⟨4 / 5, [PyJson.obj [("summary", PyJson.str "x")]]⟩ :=
  ⟨rfl, rfl, rfl, rfl, rfl⟩

/-- C8 (code-bug evidence): nothing clamps `float(importance)` to `[0,1]` —
on a response reporting importance `2.5`, `extract_memories` returns
importance `2.5`, contradicting its own docstring
(`"importance": float (0.0-1.0)`). -/
theorem c8_importance_not_clamped :
    (extractMemories "hi" "\x7b\"importance\": 2.5, \"memories\": []\x7d").importance
      = 5 / 2
    ∧ ¬ ((extractMemories "hi"
        "\x7b\"importance\": 2.5, \"memories\": []\x7d").importance ≤ 1) :=
  ⟨rfl, by decide⟩

/-- C6: the listed failure modes of `extract_memories` all yield exactly
the zero default `{importance: 0.0, memories: []}` (the model is a total
function, so no exception escapes): blank content; a response with no `{`
or no `}` anywhere; a parse that fails even after the repair pass; and a
parsed object whose `memories` field is not a list.  (A non-dict top-level
value cannot occur, since the extracted substring always starts with `{`;
the code's check for it is unreachable and the corresponding clause is
vacuous.) -/
theorem c6_extraction_default :
    (∀ content response : String, pyStrip content = "" →
      extractMemories content response = ⟨0, []⟩)
    ∧ (∀ content response : String, braceL ∉ response.data ∨ braceR ∉ response.data →
      extractMemories content response = ⟨0, []⟩)
    ∧ (∀ content response : String, parseJsonResponse response = none →
      extractMemories content response = ⟨0, []⟩)
    ∧ (∀ (content response : String) (kvs : List (String × PyJson)) (v : PyJson),
        parseJsonResponse response = some (PyJson.obj kvs) →
        pyDictGet kvs "memories" = some v →
        (∀ xs, v ≠ PyJson.arr xs) →
        extractMemories content response = ⟨0, []⟩) := by
  have hparse_none : ∀ content response : String, parseJsonResponse response = none →
      extractMemories content response = ⟨0, []⟩ := by
    intro content response hp
    unfold extractMemories
    by_cases hc : pyStrip content = ""
    · rw [if_pos hc]
    · rw [if_neg hc]
      by_cases hr : pyStrip response = ""
      · rw [if_pos hr]
      · rw [if_neg hr, hp]
        rfl
  refine ⟨?_, ?_, hparse_none, ?_⟩
  · intro content response hc
    unfold extractMemories
    rw [if_pos hc]
  · intro content response h
    exact hparse_none content response (parseJsonResponse_none_of_no_brace h)
  · intro content response kvs v hparse hget hv
    unfold extractMemories
    by_cases hc : pyStrip content = ""
    · rw [if_pos hc]
    · rw [if_neg hc]
      by_cases hr : pyStrip response = ""
      · rw [if_pos hr]
      · rw [if_neg hr, hparse]
        simp only [extractFromResponse]
        by_cases hf : pyFalsy (PyJson.obj kvs)
        · rw [if_pos hf]
        · rw [if_neg hf]
          simp only [extractFromData]
          rw [hget, Option.getD_some]
          cases v with
          | arr xs => exact absurd rfl (hv xs)
          | null => rfl
          | bool b => rfl
          | num q => rfl
          | str s => rfl
          | obj o => rfl

/-- Witness for C6: concrete instances of each listed failure mode — empty
content, a brace-free response, a response that fails to parse even after
repair, and a response whose `memories` field is the number `5`. -/
theorem c6_extraction_default_witness :
    extractMemories "" "x" = ⟨0, []⟩
    ∧ extractMemories "hi" "no json here" = ⟨0, []⟩
    ∧ extractMemories "hi" "\x7b]\x7d" = ⟨0, []⟩
    ∧ extractMemories "hi" "\x7b\"memories\": 5\x7d" = ⟨0, []⟩ :=
  ⟨c6_extraction_default.1 "" "x" rfl,
   c6_extraction_default.2.1 "hi" "no json here" (Or.inl (by decide)),
   c6_extraction_default.2.2.1 "hi" "\x7b]\x7d" rfl,
   c6_extraction_default.2.2.2 "hi" "\x7b\"memories\": 5\x7d"
     [("memories", PyJson.num 5)] (PyJson.num 5) rfl rfl
     (fun xs h => PyJson.noConfusion h)⟩

end OLV
